import Mathlib

/-!
Verification of the streaming tool-call orchestrator in `backend/agent.py`
(class `StreamingAgent`).

The development shallowly embeds the orchestrator:

* `json_parse` models Python's `json.loads` (success / failure and the
  resulting value) on the JSON fragment the agent exchanges: objects,
  arrays, strings with escapes, numbers, `true`/`false`/`null` and the
  CPython extensions `NaN`/`Infinity`/`-Infinity`.  Parsed values are
  represented by the flat inductive `Json` (arrays and objects are cons
  chains so that decidable equality is derivable).
* `_is_json_complete` models `StreamingAgent._is_json_complete`.
* `_execute_tool`, `_execute_tools_parallel`, `_execute_tools_sequential`
  model the dispatch layer; the tool registry is an association list from
  names to functions `Json → ToolOutcome`, and the nondeterministic
  scheduling of the parallel batch is an explicit oracle parameter.
* `stepDelta` / `runItems` / `callLLM` model the streaming loop of
  `_call_llm`, `submitDrain` models the result-draining loop of
  `_submit_tool_results`, and `chat_stream` / `event_stream` model the
  caller-facing generators in `agent.py` and `app.py`.
-/

/-- A parsed JSON value.  Arrays and objects are encoded as cons chains
(`arrNil`/`arrCons`, `objNil`/`objCons`) rather than `List` fields so that
`DecidableEq` can be derived; `Json.jarr` and `Json.jobj` build them from
lists. -/
inductive Json where
  | jnull
  | jbool (b : Bool)
  | jnum (lex : String)
  | jstr (s : String)
  | arrNil
  | arrCons (hd tl : Json)
  | objNil
  | objCons (key : String) (val tl : Json)
deriving DecidableEq, Repr, Inhabited

def Json.jarr (xs : List Json) : Json := xs.foldr Json.arrCons Json.arrNil

def Json.jobj (fs : List (String × Json)) : Json :=
  fs.foldr (fun kv t => Json.objCons kv.1 kv.2 t) Json.objNil

/-- The whitespace characters skipped between JSON tokens (RFC 8259 /
CPython's `json` scanner). -/
def jsonWs (c : Char) : Bool := c = ' ' || c = '\t' || c = '\n' || c = '\r'

def skipWs : List Char → List Char
  | [] => []
  | c :: cs => if jsonWs c then skipWs cs else c :: cs

def expectChars : List Char → List Char → Option (List Char)
  | [], cs => some cs
  | _ :: _, [] => none
  | p :: ps, c :: cs => if c = p then expectChars ps cs else none

def hexVal (c : Char) : Option Nat :=
  let n := c.toNat
  if 48 ≤ n && n ≤ 57 then some (n - 48)
  else if 97 ≤ n && n ≤ 102 then some (n - 87)
  else if 65 ≤ n && n ≤ 70 then some (n - 55)
  else none

def escChar (c : Char) : Option Char :=
  if c = '"' then some '"'
  else if c = '\\' then some '\\'
  else if c = '/' then some '/'
  else if c = 'b' then some (Char.ofNat 8)
  else if c = 'f' then some (Char.ofNat 12)
  else if c = 'n' then some '\n'
  else if c = 'r' then some '\r'
  else if c = 't' then some '\t'
  else none

/-- Body of a JSON string literal, after the opening quote: returns the
decoded characters and the remaining input.  Control characters are
rejected (strict mode), escapes are decoded; a `\uXXXX` escape becomes the
character with that code (surrogate-pair recombination is not modelled). -/
def parseStrBody : List Char → Option (List Char × List Char)
  | [] => none
  | '"' :: cs => some ([], cs)
  | '\\' :: 'u' :: h1 :: h2 :: h3 :: h4 :: cs =>
    (match hexVal h1, hexVal h2, hexVal h3, hexVal h4 with
     | some a, some b, some c, some d =>
       (parseStrBody cs).map
         (fun p => (Char.ofNat (a * 4096 + (b * 256 + (c * 16 + d))) :: p.1, p.2))
     | _, _, _, _ => none)
  | '\\' :: e :: cs =>
    (match escChar e with
     | some ch => (parseStrBody cs).map (fun p => (ch :: p.1, p.2))
     | none => none)
  | c :: cs =>
    if c.toNat < 32 then none
    else (parseStrBody cs).map (fun p => (c :: p.1, p.2))

def parseStr (cs : List Char) : Option (String × List Char) :=
  (parseStrBody cs).map (fun p => (String.mk p.1, p.2))

def isDig (c : Char) : Bool := 48 ≤ c.toNat && c.toNat ≤ 57

def takeDigits : List Char → (List Char × List Char)
  | [] => ([], [])
  | c :: cs =>
    if isDig c then
      let p := takeDigits cs
      (c :: p.1, p.2)
    else ([], c :: cs)

/-- Integer part of a JSON number: `0` or a nonzero digit followed by
digits (no leading zeros). -/
def parseIntPart (cs : List Char) : Option (List Char × List Char) :=
  match cs with
  | [] => none
  | c :: rest =>
    if c = '0' then some (['0'], rest)
    else if isDig c then
      let p := takeDigits rest
      some (c :: p.1, p.2)
    else none

/-- Optional fraction part `.digits`; if absent (or malformed) nothing of
the input is consumed, matching the regex `(\.\d+)?`. -/
def parseFracPart (cs : List Char) : (List Char × List Char) :=
  match cs with
  | '.' :: rest =>
    (match takeDigits rest with
     | ([], _) => ([], cs)
     | (ds, r) => ('.' :: ds, r))
  | _ => ([], cs)

/-- Optional exponent part `[eE][+-]?digits`, non-consuming when it does
not match. -/
def parseExpPart (cs : List Char) : (List Char × List Char) :=
  match cs with
  | [] => ([], cs)
  | e :: rest =>
    if e = 'e' || e = 'E' then
      let sr : List Char × List Char :=
        match rest with
        | [] => ([], rest)
        | s :: r2 => if s = '+' || s = '-' then ([s], r2) else ([], rest)
      match takeDigits sr.2 with
      | ([], _) => ([], e :: rest)
      | (ds, r) => (e :: (sr.1 ++ ds), r)
    else ([], e :: rest)

def parseNumBody (cs : List Char) : Option (List Char × List Char) :=
  match parseIntPart cs with
  | none => none
  | some (ip, cs2) =>
    let f := parseFracPart cs2
    let e := parseExpPart f.2
    some (ip ++ f.1 ++ e.1, e.2)

def infChars : List Char := ['I', 'n', 'f', 'i', 'n', 'i', 't', 'y']

/-- A JSON number (kept as its lexeme), including the CPython constants
`-Infinity` (plain `Infinity` and `NaN` are dispatched on their first
letter by `parseP`). -/
def parseNumber (cs : List Char) : Option (List Char × List Char) :=
  match cs with
  | [] => none
  | c :: rest =>
    if c = '-' then
      match parseNumBody rest with
      | some (lex, r) => some ('-' :: lex, r)
      | none =>
        match expectChars infChars rest with
        | some r => some ('-' :: infChars, r)
        | none => none
    else parseNumBody cs

/-- Parser mode: a plain value, the members of an object being read (after
`{` / after a comma), or the items of an array being read. -/
inductive PMode where
  | val
  | objNext (acc : List (String × Json))
  | arrNext (acc : List Json)

/-- Fuel-indexed recursive-descent JSON parser.  In `val` mode the input
starts at a non-whitespace position; `objNext`/`arrNext` expect the next
member/item (whitespace already skipped).  The fuel only bounds the
recursion depth; `json_parse` supplies more than any input can consume. -/
def parseP : Nat → PMode → List Char → Option (Json × List Char)
  | 0, _, _ => none
  | fuel+1, PMode.val, cs =>
    match cs with
    | [] => none
    | c :: cs1 =>
      if c = '\x7b' then
        match skipWs cs1 with
        | '\x7d' :: rest => some (Json.jobj [], rest)
        | cs2 => parseP fuel (PMode.objNext []) cs2
      else if c = '[' then
        match skipWs cs1 with
        | ']' :: rest => some (Json.jarr [], rest)
        | cs2 => parseP fuel (PMode.arrNext []) cs2
      else if c = '"' then
        match parseStr cs1 with
        | some (s, rest) => some (Json.jstr s, rest)
        | none => none
      else if c = 't' then (expectChars ['r', 'u', 'e'] cs1).map (fun r => (Json.jbool true, r))
      else if c = 'f' then (expectChars ['a', 'l', 's', 'e'] cs1).map (fun r => (Json.jbool false, r))
      else if c = 'n' then (expectChars ['u', 'l', 'l'] cs1).map (fun r => (Json.jnull, r))
      else if c = 'N' then (expectChars ['a', 'N'] cs1).map (fun r => (Json.jnum "NaN", r))
      else if c = 'I' then
        (expectChars ['n', 'f', 'i', 'n', 'i', 't', 'y'] cs1).map (fun r => (Json.jnum "Infinity", r))
      else
        match parseNumber cs with
        | some (lex, rest) => some (Json.jnum (String.mk lex), rest)
        | none => none
  | fuel+1, PMode.objNext acc, cs =>
    match cs with
    | '"' :: cs1 =>
      (match parseStr cs1 with
       | some (k, cs2) =>
         (match skipWs cs2 with
          | ':' :: cs3 =>
            (match parseP fuel PMode.val (skipWs cs3) with
             | some (v, cs4) =>
               (match skipWs cs4 with
                | ',' :: cs5 => parseP fuel (PMode.objNext (acc ++ [(k, v)])) (skipWs cs5)
                | '\x7d' :: cs5 => some (Json.jobj (acc ++ [(k, v)]), cs5)
                | _ => none)
             | none => none)
          | _ => none)
       | none => none)
    | _ => none
  | fuel+1, PMode.arrNext acc, cs =>
    match parseP fuel PMode.val cs with
    | some (v, cs2) =>
      (match skipWs cs2 with
       | ',' :: cs3 => parseP fuel (PMode.arrNext (acc ++ [v])) (skipWs cs3)
       | ']' :: cs3 => some (Json.jarr (acc ++ [v]), cs3)
       | _ => none)
    | none => none

/-- Model of `json.loads`: parse one JSON value surrounded by optional
whitespace; any trailing non-whitespace input is an error ("Extra data"). -/
def json_parse (s : String) : Option Json :=
  match parseP (3 * s.length + 3) PMode.val (skipWs s.toList) with
  | some (v, rest) => if (skipWs rest).isEmpty then some v else none
  | none => none

/-- The characters stripped by Python's `str.strip()` (the ASCII ones; the
agent only ever strips model-produced argument buffers). -/
def pyWs (c : Char) : Bool :=
  c = ' ' || c = '\t' || c = '\n' || c = '\r' || c = '\x0b' || c = '\x0c'

/-- Model of `StreamingAgent._is_json_complete`: `False` on an empty or
whitespace-only buffer (the `not json_str or not json_str.strip()` guard,
with `json_str.strip()` being empty exactly when every character is
whitespace) and otherwise `True` exactly when `json.loads` succeeds. -/
def _is_json_complete (s : String) : Bool :=
  if s.isEmpty || s.toList.all pyWs then false
  else (json_parse s).isSome

example : _is_json_complete "" = false := by decide
example : _is_json_complete "  " = false := by decide
example : _is_json_complete "\x7b" = false := by decide
example : _is_json_complete "\x7b\x7d" = true := by decide
example : _is_json_complete "\x7b\"a\":1\x7d" = true := by decide
example : json_parse "\x7b\"a\":1\x7d" = some (Json.jobj [("a", Json.jnum "1")]) := by decide
example : json_parse "\x7b\x7d!" = none := by decide
example : json_parse "[1, 2]" = some (Json.jarr [Json.jnum "1", Json.jnum "2"]) := by decide
example : json_parse " \"a\" " = some (Json.jstr "a") := by decide
example : json_parse "-12.5e3" = some (Json.jnum "-12.5e3") := by decide
example : json_parse "01" = none := by decide
example : json_parse "true" = some (Json.jbool true) := by decide
example : json_parse "\x7b\"a\":\x7b\"b\":[]\x7d\x7d"
    = some (Json.jobj [("a", Json.jobj [("b", Json.jarr [])])]) := by decide

theorem parseP_val_nil (fuel : Nat) : parseP fuel PMode.val [] = none := by
  cases fuel <;> simp [parseP]

theorem skipWs_head_not_ws (l : List Char) :
    skipWs l = [] ∨ ∃ c cs, skipWs l = c :: cs ∧ jsonWs c = false := by
  induction l with
  | nil => exact Or.inl rfl
  | cons c cs ih =>
    cases hb : jsonWs c with
    | true => simpa [skipWs, hb] using ih
    | false => exact Or.inr ⟨c, cs, by simp [skipWs, hb], hb⟩

theorem skipWs_all_pyWs (l : List Char) (h : l.all pyWs = true) :
    (skipWs l).all pyWs = true := by
  induction l with
  | nil => simp [skipWs]
  | cons c cs ih =>
    simp only [List.all_cons, Bool.and_eq_true] at h
    cases hb : jsonWs c with
    | true => simpa [skipWs, hb] using ih h.2
    | false => simp [skipWs, hb, List.all_cons, h.1, h.2]

theorem pyWs_not_jsonWs (c : Char) (h1 : pyWs c = true) (h2 : jsonWs c = false) :
    c = '\x0b' ∨ c = '\x0c' := by
  simp only [pyWs, Bool.or_eq_true, decide_eq_true_eq] at h1
  rcases h1 with ((((h | h) | h) | h) | h) | h
  · subst h; simp [jsonWs] at h2
  · subst h; simp [jsonWs] at h2
  · subst h; simp [jsonWs] at h2
  · subst h; simp [jsonWs] at h2
  · exact Or.inl h
  · exact Or.inr h

theorem parseP_val_vt (fuel : Nat) (cs : List Char) :
    parseP fuel PMode.val ('\x0b' :: cs) = none := by
  cases fuel with
  | zero => simp [parseP]
  | succ n =>
    simp [parseP, parseNumber, parseNumBody, parseIntPart, isDig]

theorem parseP_val_ff (fuel : Nat) (cs : List Char) :
    parseP fuel PMode.val ('\x0c' :: cs) = none := by
  cases fuel with
  | zero => simp [parseP]
  | succ n =>
    simp [parseP, parseNumber, parseNumBody, parseIntPart, isDig]

/-- A buffer consisting solely of Python whitespace is not valid JSON. -/
theorem json_parse_all_ws (s : String) (h : s.toList.all pyWs = true) :
    json_parse s = none := by
  unfold json_parse
  rcases skipWs_head_not_ws s.toList with h0 | ⟨c, cs, hc, hw⟩
  · rw [h0, parseP_val_nil]
  · have hall := skipWs_all_pyWs s.toList h
    rw [hc] at hall
    simp only [List.all_cons, Bool.and_eq_true] at hall
    rcases pyWs_not_jsonWs c hall.1 hw with rfl | rfl
    · rw [hc, parseP_val_vt]
    · rw [hc, parseP_val_ff]

/-- Outcome of invoking a registered tool function on parsed arguments:
normal return, a `TypeError` (signature mismatch), or any other raised
exception, mirroring the three branches of `_execute_tool`'s inner `try`. -/
inductive ToolOutcome where
  | ok (result : String)
  | typeError (msg : String)
  | raised (msg : String)

/-- The agent's `tool_functions` dict: an insertion-ordered mapping from
tool name to callable. -/
abbrev ToolRegistry := List (String × (Json → ToolOutcome))

/-- Association-list lookup, modelling Python `dict` indexing. -/
def lookupA {K V : Type} [DecidableEq K] : List (K × V) → K → Option V
  | [], _ => none
  | kv :: rest, k => if kv.1 = k then some kv.2 else lookupA rest k

/-- Association-list update-or-append, modelling Python `dict` assignment
(insertion order preserved, existing key overwritten in place). -/
def setA {K V : Type} [DecidableEq K] : List (K × V) → K → V → List (K × V)
  | [], k, v => [(k, v)]
  | kv :: rest, k, v => if kv.1 = k then (k, v) :: rest else kv :: setA rest k v

/-- A single quote character, used in the `Unknown function '<name>'`
message. -/
def quoteCh : String := String.singleton (Char.ofNat 39)

/-- Stand-in for `str(e)` of a `json.JSONDecodeError` (the Python text also
carries a position, irrelevant to every claim, which only needs "a text
describing the parse error"). -/
def parseErrText : String := "Expecting value"

/-- One tool-call record: the per-slot dict
`{"id", "type", "function": {"name", "arguments"}}` built by `_call_llm`,
also used as the `ToolCall` mock object passed to `_execute_tool`.
Absent/`None` string fields are encoded as `""` (both are falsy in the
Python truthiness tests the code performs). -/
structure ToolCallRec where
  id : String
  type : String
  name : String
  arguments : String
deriving DecidableEq, Repr, Inhabited

/-- Model of `StreamingAgent._execute_tool`: returns
`(result, tool_call_id, success)`.  Arguments are parsed before the
registry lookup, exactly as in the source; every failure is converted into
a `(text, id, False)` triple, so the function never raises. -/
def _execute_tool (reg : ToolRegistry) (tc : ToolCallRec) : String × String × Bool :=
  if tc.name = "" then ("Error: Tool call missing function name", tc.id, false)
  else
    let arguments_str := if tc.arguments = "" then "\x7b\x7d" else tc.arguments
    match json_parse arguments_str with
    | none =>
      ("Error: Invalid arguments for " ++ tc.name ++ ": " ++ parseErrText, tc.id, false)
    | some args =>
      match lookupA reg tc.name with
      | some f =>
        (match f args with
         | ToolOutcome.ok r => (r, tc.id, true)
         | ToolOutcome.typeError e =>
           ("Error: Invalid arguments for " ++ tc.name ++ ": " ++ e, tc.id, false)
         | ToolOutcome.raised e => ("Error executing " ++ tc.name ++ ": " ++ e, tc.id, false))
      | none => ("Error: Unknown function " ++ quoteCh ++ tc.name ++ quoteCh, tc.id, false)

/-- Model of `_execute_tools_sequential`: one call at a time, appending
each triple; no deadline of any kind appears in this code path. -/
def _execute_tools_sequential (reg : ToolRegistry) :
    List ToolCallRec → List (String × String × Bool)
  | [] => []
  | tc :: rest => _execute_tool reg tc :: _execute_tools_sequential reg rest

def timeoutText (timeoutLit : String) : String := "Timeout after " ++ timeoutLit ++ "s"

/-- Model of `_execute_tools_parallel`.  `timeoutLit` is the rendering of
`self.tool_call_timeout` inside the f-string.  The scheduling of the batch
is abstracted by the oracle `finished`: `finished i` says whether task `i`
completed before the deadline.  `asyncio.wait_for(asyncio.gather(...))`
returns normally iff every task finished in time (in which case the
gathered results are the per-call `_execute_tool` triples in task order;
`_execute_tool` never raises, so the `isinstance(result, Exception)`
branch is dead) and raises `TimeoutError` otherwise, in which case the
source builds a timeout triple for every call of the batch.  The final
`except Exception` fallback is unreachable in the model. -/
def _execute_tools_parallel (reg : ToolRegistry) (timeoutLit : String)
    (calls : List ToolCallRec) (finished : Nat → Bool) : List (String × String × Bool) :=
  if (List.range calls.length).all finished then
    calls.map (_execute_tool reg)
  else
    calls.map (fun tc => (timeoutText timeoutLit, tc.id, false))

/-- The `arguments` value carried by a `tool_call` event: the parsed JSON
mapping, or (only on the draining path) the raw unparsed string when
`json.loads` fails. -/
inductive ArgPayload where
  | parsed (j : Json)
  | raw (s : String)
deriving DecidableEq, Repr

/-- The structured events yielded by `chat_stream` (§`agent.py`):
`content`, `tool_call` and `tool_result`. -/
inductive Ev where
  | content (s : String)
  | tool_call (id fn : String) (args : ArgPayload)
  | tool_result (id result : String) (success : Bool)
deriving DecidableEq, Repr

/-- One incremental tool-call fragment from the model stream
(`tool_call_delta`): a slot index plus possibly-empty field updates
(`""` encodes both `None` and the empty string — identical under the
code's truthiness tests). -/
structure Delta where
  index : Nat
  id : String
  type : String
  name : String
  arguments : String
deriving DecidableEq, Repr

/-- One streamed chunk relevant to the loop body of `_call_llm`: a chunk
with truthy `delta.content`, or one tool-call delta.  A chunk carrying
both is modelled as the content item followed by its delta items, which is
the order the loop body handles them in. -/
inductive StreamItem where
  | content (s : String)
  | toolDelta (d : Delta)
deriving DecidableEq, Repr

/-- Fresh slot value created on first sight of an index:
`{"id": "", "type": "function", "function": {"name": "", "arguments": ""}}`. -/
def initSlot : ToolCallRec := ⟨"", "function", "", ""⟩

/-- Merging one delta into a slot: non-empty `id`/`type`/`name` replace,
`arguments` text is appended. -/
def mergeDelta (c : ToolCallRec) (d : Delta) : ToolCallRec :=
  { id := if d.id = "" then c.id else d.id
    type := if d.type = "" then c.type else d.type
    name := if d.name = "" then c.name else d.name
    arguments := c.arguments ++ d.arguments }

/-- The three readiness conditions checked after each merge: non-empty id,
non-empty name, argument buffer complete JSON. -/
def isReadySlot (c : ToolCallRec) : Bool :=
  c.id ≠ "" && c.name ≠ "" && _is_json_complete c.arguments

/-- Streaming state of `_call_llm`: accumulated content, the
`tool_calls_by_index` dict (insertion-ordered association list), the
`executed_tool_calls` set (kept as the chronological list of indices, so
notification counts can be stated), and the `tool_results` dict. -/
structure AsmState where
  full_content : String
  slots : List (Nat × ToolCallRec)
  readyLog : List Nat
  tool_results : List (String × (String × Bool))
deriving Repr

def initAsm : AsmState := ⟨"", [], [], []⟩

/-- Arguments payload of an eager (mid-stream) `tool_call` event: the code
calls `json.loads` directly, which cannot fail there because
`_is_json_complete` just returned `True`. -/
def eagerArgs (s : String) : ArgPayload := ArgPayload.parsed ((json_parse s).getD Json.jnull)

/-- Model of `_call_tool_with_fall_back`: builds the `ToolCall` mock and
runs `_execute_tool`, returning `(result, success)`.  The construction of
the mock cannot fail in the model, so the fallback branch is dead. -/
def _call_tool_with_fall_back (reg : ToolRegistry) (tc : ToolCallRec) : String × Bool :=
  let r := _execute_tool reg tc
  (r.1, r.2.2)

/-- Processing of one `tool_call_delta` in `_call_llm`'s streaming loop:
initialize-or-fetch the slot, merge the delta, and if the slot has not
been executed yet and is now ready, eagerly dispatch it (yielding the
`tool_call`/`tool_result` event pair, recording the slot index in
`executed_tool_calls` and caching the result under the slot's current id). -/
def stepDelta (reg : ToolRegistry) (st : AsmState) (d : Delta) : AsmState × List Ev :=
  let c0 := (lookupA st.slots d.index).getD initSlot
  let c := mergeDelta c0 d
  let slots2 := setA st.slots d.index c
  if !(st.readyLog.contains d.index) && isReadySlot c then
    let rs := _call_tool_with_fall_back reg c
    ({ st with
        slots := slots2
        readyLog := st.readyLog ++ [d.index]
        tool_results := setA st.tool_results c.id rs },
      [Ev.tool_call c.id c.name (eagerArgs c.arguments), Ev.tool_result c.id rs.1 rs.2])
  else ({ st with slots := slots2 }, [])

def stepItem (reg : ToolRegistry) (st : AsmState) : StreamItem → AsmState × List Ev
  | StreamItem.content s => ({ st with full_content := st.full_content ++ s }, [Ev.content s])
  | StreamItem.toolDelta d => stepDelta reg st d

/-- The full streaming loop of `_call_llm`, folded over the chunk items:
final state plus events yielded, in order. -/
def runItems (reg : ToolRegistry) (st : AsmState) : List StreamItem → AsmState × List Ev
  | [] => (st, [])
  | it :: its =>
    let r1 := stepItem reg st it
    let r2 := runItems reg r1.1 its
    (r2.1, r1.2 ++ r2.2)

def runDeltas (reg : ToolRegistry) (items : List StreamItem) : AsmState × List Ev :=
  runItems reg initAsm items

/-- Insertion sort over slot indices, modelling Python's
`sorted(tool_calls_by_index.keys())`. -/
def insertKey (i : Nat) : List Nat → List Nat
  | [] => [i]
  | j :: js => if i ≤ j then i :: j :: js else j :: insertKey i js

def sortKeys : List Nat → List Nat
  | [] => []
  | j :: js => insertKey j (sortKeys js)

/-- Stream-end call list of `_call_llm`: slots read out in ascending index
order, then filtered to those with non-empty name and non-empty argument
buffer (`valid_tool_calls`). -/
def streamEndCalls (st : AsmState) : List ToolCallRec :=
  ((sortKeys (st.slots.map Prod.fst)).filterMap (fun i => lookupA st.slots i)).filter
    (fun tc => tc.name ≠ "" && tc.arguments ≠ "")

/-- Same read-out keeping the slot index attached, for stating ordering
properties. -/
def streamEndPairs (st : AsmState) : List (Nat × ToolCallRec) :=
  ((sortKeys (st.slots.map Prod.fst)).filterMap
      (fun i => (lookupA st.slots i).map (fun c => (i, c)))).filter
    (fun p => p.2.name ≠ "" && p.2.arguments ≠ "")

/-- The final tuple produced by `_call_llm`:
`(full_content, valid_tool_calls, tool_results)`, plus the events yielded
along the way. -/
structure LLMOut where
  full_content : String
  valid_tool_calls : List ToolCallRec
  tool_results : List (String × (String × Bool))
  events : List Ev

def callLLM (reg : ToolRegistry) (items : List StreamItem) : LLMOut :=
  let r := runDeltas reg items
  ⟨r.1.full_content, streamEndCalls r.1, r.1.tool_results, r.2⟩

/-- A `{"role": "tool", "tool_call_id": ..., "content": ...}` message
appended to the conversation history. -/
structure ToolMsg where
  tool_call_id : String
  content : String
deriving DecidableEq, Repr

/-- Arguments payload of a draining-phase `tool_call` event:
`json.loads` result, or the raw string on `JSONDecodeError`. -/
def drainArgs (s : String) : ArgPayload :=
  match json_parse s with
  | some j => ArgPayload.parsed j
  | none => ArgPayload.raw s

/-- The draining loop of `_submit_tool_results`: for each call of the
final list, in order — reuse the cached result when the call's id is a key
of `tool_results`, otherwise yield a `tool_call` event, execute now, and
yield a `tool_result` event; in both cases append one tool message
referencing the call's id.  Returns (events yielded, tool messages
appended), each in order. -/
def submitDrain (reg : ToolRegistry) (tool_results : List (String × (String × Bool))) :
    List ToolCallRec → List Ev × List ToolMsg
  | [] => ([], [])
  | tc :: rest =>
    match lookupA tool_results tc.id with
    | some rs =>
      let r2 := submitDrain reg tool_results rest
      (r2.1, ⟨tc.id, rs.1⟩ :: r2.2)
    | none =>
      let rs := _call_tool_with_fall_back reg tc
      let r2 := submitDrain reg tool_results rest
      (Ev.tool_call tc.id tc.name (drainArgs tc.arguments)
          :: Ev.tool_result tc.id rs.1 rs.2 :: r2.1,
        ⟨tc.id, rs.1⟩ :: r2.2)

/-- What a run of the `chat_stream` generator produced: the events yielded
before it finished or died, and the exception (if any) that escaped it. -/
structure ChatOutcome where
  events : List Ev
  raised : Option String
deriving DecidableEq, Repr

/-- Model of `StreamingAgent.chat_stream`.  The two model-transport calls
(`client.chat.completions.create`, issued once for the main stream and —
only when valid tool calls exist — once more for the final response) are
modelled as `Except` values: `Except.error e` is a transport failure,
which no `try`/`except` in `chat_stream` intercepts, so it escapes as the
outcome's `raised` field.  Tool execution failures never raise: they are
folded into result triples by `_execute_tool`. -/
def chat_stream (reg : ToolRegistry) (stream1 : Except String (List StreamItem))
    (stream2 : Except String (List String)) : ChatOutcome :=
  match stream1 with
  | Except.error e => ⟨[], some e⟩
  | Except.ok items =>
    let o := callLLM reg items
    if o.valid_tool_calls.isEmpty then ⟨o.events, none⟩
    else
      let dr := submitDrain reg o.tool_results o.valid_tool_calls
      match stream2 with
      | Except.error e => ⟨o.events ++ dr.1, some e⟩
      | Except.ok chunks => ⟨o.events ++ dr.1 ++ chunks.map Ev.content, none⟩

/-- Events serialized by `app.py`'s `event_stream`: forwarded agent
events, the final `ChatCompleteEvent`, or the `ErrorEvent` emitted by the
`except` handler. -/
inductive SseEv where
  | ev (e : Ev)
  | chat_complete (final_response : String) (total_tool_calls : Nat)
  | error_event (msg : String)
deriving DecidableEq, Repr

def contentOf : Ev → String
  | Ev.content s => s
  | _ => ""

def isToolCallEv : Ev → Bool
  | Ev.tool_call _ _ _ => true
  | _ => false

/-- Model of `event_stream` in `app.py`'s `/chat/stream` endpoint: forward
every event of `chat_stream`, accumulating content and counting
`tool_call` events; on normal termination append a `ChatCompleteEvent`,
and if an exception escapes `chat_stream` append an `ErrorEvent` instead. -/
def event_stream (reg : ToolRegistry) (stream1 : Except String (List StreamItem))
    (stream2 : Except String (List String)) : List SseEv :=
  let o := chat_stream reg stream1 stream2
  let body := o.events.map SseEv.ev
  match o.raised with
  | some e => body ++ [SseEv.error_event e]
  | none =>
    body ++ [SseEv.chat_complete (String.join (o.events.map contentOf))
      (o.events.countP isToolCallEv)]

section AssocLemmas

variable {K V : Type} [DecidableEq K]

theorem lookupA_setA_self (l : List (K × V)) (k : K) (v : V) :
    lookupA (setA l k v) k = some v := by
  induction l with
  | nil => simp [setA, lookupA]
  | cons kv rest ih =>
    by_cases h : kv.1 = k
    · simp [setA, h, lookupA]
    · simp [setA, h, lookupA, ih]

theorem lookupA_setA_ne (l : List (K × V)) (k k' : K) (v : V) (h : k' ≠ k) :
    lookupA (setA l k v) k' = lookupA l k' := by
  induction l with
  | nil => simp [setA, lookupA, Ne.symm h]
  | cons kv rest ih =>
    by_cases hk : kv.1 = k
    · subst hk
      simp [setA, lookupA, Ne.symm h]
    · by_cases hk' : kv.1 = k'
      · simp [setA, hk, lookupA, hk', h]
      · simp [setA, hk, lookupA, hk', ih]

theorem keys_setA_mem (l : List (K × V)) (k : K) (v : V) (h : k ∈ l.map Prod.fst) :
    (setA l k v).map Prod.fst = l.map Prod.fst := by
  induction l with
  | nil => simp at h
  | cons kv rest ih =>
    by_cases hk : kv.1 = k
    · simp [setA, hk]
    · simp only [List.map_cons, List.mem_cons] at h
      rcases h with h | h
      · exact absurd h.symm hk
      · simp [setA, hk, ih h]

theorem keys_setA_not_mem (l : List (K × V)) (k : K) (v : V) (h : k ∉ l.map Prod.fst) :
    (setA l k v).map Prod.fst = l.map Prod.fst ++ [k] := by
  induction l with
  | nil => simp [setA]
  | cons kv rest ih =>
    simp only [List.map_cons, List.mem_cons] at h
    push_neg at h
    have hk : kv.1 ≠ k := fun e => h.1 e.symm
    simp [setA, hk, ih h.2]

theorem nodup_keys_setA (l : List (K × V)) (k : K) (v : V)
    (h : (l.map Prod.fst).Nodup) : ((setA l k v).map Prod.fst).Nodup := by
  by_cases hm : k ∈ l.map Prod.fst
  · rw [keys_setA_mem l k v hm]; exact h
  · rw [keys_setA_not_mem l k v hm]
    refine List.Nodup.append h (List.nodup_singleton k) ?_
    intro a ha hak
    rw [List.mem_singleton] at hak
    exact hm (hak ▸ ha)

theorem lookupA_none_of_not_mem (l : List (K × V)) (k : K) (h : k ∉ l.map Prod.fst) :
    lookupA l k = none := by
  induction l with
  | nil => rfl
  | cons kv rest ih =>
    simp only [List.map_cons, List.mem_cons] at h
    push_neg at h
    have hk : kv.1 ≠ k := fun e => h.1 e.symm
    simp [lookupA, hk, ih h.2]

theorem mem_of_lookupA (l : List (K × V)) (k : K) (v : V) (h : lookupA l k = some v) :
    (k, v) ∈ l := by
  induction l with
  | nil => simp [lookupA] at h
  | cons kv rest ih =>
    by_cases hk : kv.1 = k
    · simp only [lookupA, if_pos hk] at h
      cases kv with
      | mk k1 v1 =>
        simp only at hk h
        subst hk
        obtain rfl := Option.some_injective _ h
        exact List.mem_cons_self _ _
    · simp only [lookupA, if_neg hk] at h
      exact List.mem_cons_of_mem _ (ih h)

theorem lookupA_eq_some_of_mem (l : List (K × V)) (k : K) (v : V)
    (hnd : (l.map Prod.fst).Nodup) (h : (k, v) ∈ l) : lookupA l k = some v := by
  induction l with
  | nil => simp at h
  | cons kv rest ih =>
    simp only [List.map_cons, List.nodup_cons] at hnd
    rcases List.mem_cons.mp h with rfl | hmem
    · simp [lookupA]
    · have hk : kv.1 ≠ k := by
        intro e
        exact hnd.1 (e ▸ List.mem_map_of_mem Prod.fst hmem)
      simp [lookupA, hk, ih hnd.2 hmem]

theorem lookupA_isSome_of_mem_keys (l : List (K × V)) (k : K)
    (h : k ∈ l.map Prod.fst) : (lookupA l k).isSome := by
  induction l with
  | nil => simp at h
  | cons kv rest ih =>
    by_cases hk : kv.1 = k
    · simp [lookupA, hk]
    · simp only [List.map_cons, List.mem_cons] at h
      rcases h with h | h
      · exact absurd h.symm hk
      · simp [lookupA, hk, ih h]

end AssocLemmas

theorem mem_insertKey (i j : Nat) (l : List Nat) :
    j ∈ insertKey i l ↔ j = i ∨ j ∈ l := by
  induction l with
  | nil => simp [insertKey]
  | cons a l ih =>
    by_cases h : i ≤ a
    · simp [insertKey, h]
    · simp [insertKey, h, ih]
      tauto

theorem perm_insertKey (i : Nat) (l : List Nat) : (insertKey i l).Perm (i :: l) := by
  induction l with
  | nil => simp [insertKey]
  | cons a l ih =>
    by_cases h : i ≤ a
    · simp [insertKey, h]
    · rw [insertKey, if_neg h]
      exact List.Perm.trans (List.Perm.cons a ih) (List.Perm.swap i a l)

theorem perm_sortKeys (l : List Nat) : (sortKeys l).Perm l := by
  induction l with
  | nil => simp [sortKeys]
  | cons a l ih =>
    rw [sortKeys]
    exact List.Perm.trans (perm_insertKey a (sortKeys l)) (List.Perm.cons a ih)

theorem mem_sortKeys (j : Nat) (l : List Nat) : j ∈ sortKeys l ↔ j ∈ l :=
  (perm_sortKeys l).mem_iff

theorem sorted_insertKey (i : Nat) (l : List Nat) (h : l.Sorted (· ≤ ·)) :
    (insertKey i l).Sorted (· ≤ ·) := by
  induction l with
  | nil => simp [insertKey]
  | cons a l ih =>
    rw [List.sorted_cons] at h
    by_cases hle : i ≤ a
    · rw [insertKey, if_pos hle, List.sorted_cons]
      refine ⟨?_, List.sorted_cons.mpr h⟩
      intro b hb
      rcases List.mem_cons.mp hb with rfl | hb
      · exact hle
      · exact le_trans hle (h.1 b hb)
    · rw [insertKey, if_neg hle, List.sorted_cons]
      refine ⟨?_, ih h.2⟩
      intro b hb
      rcases (mem_insertKey i b l).mp hb with rfl | hb
      · omega
      · exact h.1 b hb

theorem sorted_sortKeys (l : List Nat) : (sortKeys l).Sorted (· ≤ ·) := by
  induction l with
  | nil => simp [sortKeys]
  | cons a l ih => exact sorted_insertKey a (sortKeys l) ih

theorem sorted_lt_of_le_nodup (l : List Nat) (h1 : l.Sorted (· ≤ ·)) (h2 : l.Nodup) :
    l.Sorted (· < ·) := by
  have h3 := List.Pairwise.and h1 h2
  exact h3.imp (fun hab => lt_of_le_of_ne hab.1 hab.2)

theorem runItems_append (reg : ToolRegistry) (st : AsmState) (l1 l2 : List StreamItem) :
    runItems reg st (l1 ++ l2) =
      ((runItems reg (runItems reg st l1).1 l2).1,
        (runItems reg st l1).2 ++ (runItems reg (runItems reg st l1).1 l2).2) := by
  induction l1 generalizing st with
  | nil => simp [runItems]
  | cons it its ih => simp [runItems, ih, List.append_assoc]

/-- The slot accumulated for index `i` after processing a stream. -/
def slotAfter (reg : ToolRegistry) (items : List StreamItem) (i : Nat) : Option ToolCallRec :=
  lookupA (runDeltas reg items).1.slots i

/-- Whether, right after the first `u` stream items, slot `i` exists and
satisfies the three readiness conditions. -/
def prefixReadyB (reg : ToolRegistry) (items : List StreamItem) (u i : Nat) : Bool :=
  match slotAfter reg (items.take u) i with
  | some c => isReadySlot c
  | none => false

/-- Whether slot `i` was ready at any point within the first `t` items. -/
def everReadyUpTo (reg : ToolRegistry) (items : List StreamItem) (t i : Nat) : Bool :=
  (List.range (t+1)).any (fun u => prefixReadyB reg items u i)

theorem stepDelta_slots (reg : ToolRegistry) (st : AsmState) (d : Delta) :
    (stepDelta reg st d).1.slots
      = setA st.slots d.index (mergeDelta ((lookupA st.slots d.index).getD initSlot) d) := by
  rw [stepDelta]
  split <;> rfl

theorem stepDelta_readyLog (reg : ToolRegistry) (st : AsmState) (d : Delta) :
    (stepDelta reg st d).1.readyLog
      = if !(st.readyLog.contains d.index)
            && isReadySlot (mergeDelta ((lookupA st.slots d.index).getD initSlot) d)
        then st.readyLog ++ [d.index] else st.readyLog := by
  rw [stepDelta]
  split <;> simp_all

theorem stepDelta_cases (reg : ToolRegistry) (st : AsmState) (d : Delta) :
    ((stepDelta reg st d).2.countP isToolCallEv = 1
        ∧ (stepDelta reg st d).1.readyLog = st.readyLog ++ [d.index])
    ∨ ((stepDelta reg st d).2.countP isToolCallEv = 0
        ∧ (stepDelta reg st d).1.readyLog = st.readyLog) := by
  rw [stepDelta]
  split
  · left
    constructor
    · simp [List.countP_cons, isToolCallEv]
    · rfl
  · right
    constructor
    · simp
    · rfl

theorem readyLog_length_events (reg : ToolRegistry) (st : AsmState) (items : List StreamItem) :
    (runItems reg st items).1.readyLog.length
      = st.readyLog.length + (runItems reg st items).2.countP isToolCallEv := by
  induction items generalizing st with
  | nil => simp [runItems]
  | cons it its ih =>
    cases it with
    | content s =>
      simp only [runItems, stepItem]
      rw [ih]
      simp [List.countP_append, List.countP_cons, isToolCallEv]
    | toolDelta d =>
      simp only [runItems, stepItem]
      rw [ih]
      rcases stepDelta_cases reg st d with ⟨h1, h2⟩ | ⟨h1, h2⟩
      · simp only [List.countP_append, h1, h2, List.length_append, List.length_cons,
          List.length_nil]
        omega
      · simp only [List.countP_append, h1, h2, List.length_append, List.length_nil]
        omega

theorem prefixReady_le_ever (reg : ToolRegistry) (items : List StreamItem) (t i : Nat) :
    everReadyUpTo reg items t i
      = (everReadyUpTo reg items t i || prefixReadyB reg items t i) := by
  cases hp : prefixReadyB reg items t i
  · simp
  · simp only [Bool.or_true]
    unfold everReadyUpTo
    rw [List.any_eq_true]
    exact ⟨t, List.mem_range.mpr (Nat.lt_succ_self t), hp⟩

/-- Master invariant of the streaming loop: after any prefix of the
stream, the number of times slot `i` appears in the executed-log is `1`
when some processed prefix left slot `i` satisfying the readiness
conditions, and `0` otherwise. -/
theorem readyCount_take (reg : ToolRegistry) (items : List StreamItem) (i t : Nat) :
    (runDeltas reg (items.take t)).1.readyLog.count i
      = if everReadyUpTo reg items t i then 1 else 0 := by
  induction t with
  | zero =>
    simp [runDeltas, runItems, everReadyUpTo, prefixReadyB, slotAfter, initAsm, lookupA,
      List.range_succ]
  | succ t ih =>
    have hsplit : everReadyUpTo reg items (t+1) i
        = (everReadyUpTo reg items t i || prefixReadyB reg items (t+1) i) := by
      unfold everReadyUpTo
      rw [List.range_succ, List.any_append]
      simp
    by_cases hlen : t < items.length
    · have htake : items.take (t+1) = items.take t ++ [items[t]] := by
        rw [List.take_succ, List.getElem?_eq_getElem hlen]
        rfl
      have hstate : (runDeltas reg (items.take (t+1))).1
          = (stepItem reg (runDeltas reg (items.take t)).1 items[t]).1 := by
        rw [htake]
        unfold runDeltas
        rw [runItems_append]
        simp [runItems]
      cases hx : items[t] with
      | content s =>
        have hslots : (runDeltas reg (items.take (t+1))).1.slots
            = (runDeltas reg (items.take t)).1.slots := by
          rw [hstate, hx]; rfl
        have hlog : (runDeltas reg (items.take (t+1))).1.readyLog
            = (runDeltas reg (items.take t)).1.readyLog := by
          rw [hstate, hx]; rfl
        have hpre : prefixReadyB reg items (t+1) i = prefixReadyB reg items t i := by
          unfold prefixReadyB slotAfter
          rw [hslots]
        rw [hlog, hsplit, hpre, ← prefixReady_le_ever]
        exact ih
      | toolDelta d =>
        have hslots : (runDeltas reg (items.take (t+1))).1.slots
            = setA (runDeltas reg (items.take t)).1.slots d.index
                (mergeDelta
                  ((lookupA (runDeltas reg (items.take t)).1.slots d.index).getD initSlot) d) := by
          rw [hstate, hx]
          exact stepDelta_slots reg _ d
        have hlog : (runDeltas reg (items.take (t+1))).1.readyLog
            = if !((runDeltas reg (items.take t)).1.readyLog.contains d.index)
                  && isReadySlot (mergeDelta
                    ((lookupA (runDeltas reg (items.take t)).1.slots d.index).getD initSlot) d)
              then (runDeltas reg (items.take t)).1.readyLog ++ [d.index]
              else (runDeltas reg (items.take t)).1.readyLog := by
          rw [hstate, hx]
          exact stepDelta_readyLog reg _ d
        by_cases hi : i = d.index
        · subst hi
          have hpre : prefixReadyB reg items (t+1) d.index
              = isReadySlot (mergeDelta
                  ((lookupA (runDeltas reg (items.take t)).1.slots d.index).getD initSlot) d) := by
            unfold prefixReadyB slotAfter
            rw [hslots, lookupA_setA_self]
          cases hcont : (runDeltas reg (items.take t)).1.readyLog.contains d.index with
          | true =>
            have hmem : d.index ∈ (runDeltas reg (items.take t)).1.readyLog :=
              List.elem_iff.mp hcont
            have hever : everReadyUpTo reg items t d.index = true := by
              cases he : everReadyUpTo reg items t d.index
              · rw [he] at ih
                simp only [if_neg Bool.false_ne_true] at ih
                exact absurd (List.count_eq_zero.mp ih) (fun h => h hmem)
              · rfl
            have hcount : (runDeltas reg (items.take t)).1.readyLog.count d.index = 1 := by
              rw [ih, hever, if_pos rfl]
            rw [hlog, hcont]
            simp only [Bool.not_true, Bool.false_and, if_neg Bool.false_ne_true]
            rw [hcount, hsplit, hever]
            simp
          | false =>
            have hnmem : d.index ∉ (runDeltas reg (items.take t)).1.readyLog := by
              intro hmem
              have hc : (runDeltas reg (items.take t)).1.readyLog.contains d.index = true :=
                List.elem_iff.mpr hmem
              rw [hcont] at hc
              exact Bool.false_ne_true hc
            have hcount : (runDeltas reg (items.take t)).1.readyLog.count d.index = 0 :=
              List.count_eq_zero_of_not_mem hnmem
            have hever : everReadyUpTo reg items t d.index = false := by
              cases he : everReadyUpTo reg items t d.index
              · rfl
              · rw [ih, he, if_pos rfl] at hcount
                exact absurd hcount one_ne_zero
            rw [hlog, hcont]
            simp only [Bool.not_false, Bool.true_and]
            cases hr : isReadySlot (mergeDelta
                ((lookupA (runDeltas reg (items.take t)).1.slots d.index).getD initSlot) d) with
            | true =>
              rw [if_pos rfl, List.count_append, hcount, List.count_singleton_self,
                hsplit, hever, hpre, hr]
              simp
            | false =>
              rw [if_neg Bool.false_ne_true, hcount, hsplit, hever, hpre, hr]
              simp
        · have hpre : prefixReadyB reg items (t+1) i = prefixReadyB reg items t i := by
            unfold prefixReadyB slotAfter
            rw [hslots, lookupA_setA_ne _ _ _ _ hi]
          have hcnt : (runDeltas reg (items.take (t+1))).1.readyLog.count i
              = (runDeltas reg (items.take t)).1.readyLog.count i := by
            rw [hlog]
            split
            · simp [List.count_append, List.count_singleton, Ne.symm hi]
            · rfl
          rw [hcnt, hsplit, hpre, ← prefixReady_le_ever]
          exact ih
    · have htake1 : items.take (t+1) = items := List.take_of_length_le (by omega)
      have htake0 : items.take t = items := List.take_of_length_le (by omega)
      have hpre : prefixReadyB reg items (t+1) i = prefixReadyB reg items t i := by
        unfold prefixReadyB
        rw [htake1, htake0]
      rw [htake1, hsplit, hpre, ← prefixReady_le_ever]
      rw [htake0] at ih
      exact ih

theorem slots_keys_nodup (reg : ToolRegistry) (st : AsmState) (items : List StreamItem)
    (h : (st.slots.map Prod.fst).Nodup) :
    (((runItems reg st items).1.slots).map Prod.fst).Nodup := by
  induction items generalizing st with
  | nil => simpa [runItems]
  | cons it its ih =>
    simp only [runItems]
    apply ih
    cases it with
    | content s => simpa [stepItem]
    | toolDelta d =>
      rw [show stepItem reg st (StreamItem.toolDelta d) = stepDelta reg st d from rfl,
        stepDelta_slots]
      exact nodup_keys_setA _ _ _ h

theorem runDeltas_keys_nodup (reg : ToolRegistry) (items : List StreamItem) :
    (((runDeltas reg items).1.slots).map Prod.fst).Nodup :=
  slots_keys_nodup reg initAsm items (by simp [initAsm])

theorem mem_streamEndCalls (st : AsmState) (hnd : (st.slots.map Prod.fst).Nodup)
    (tc : ToolCallRec) :
    tc ∈ streamEndCalls st
      ↔ (∃ i, (i, tc) ∈ st.slots) ∧ tc.name ≠ "" ∧ tc.arguments ≠ "" := by
  unfold streamEndCalls
  rw [List.mem_filter]
  constructor
  · rintro ⟨hmem, hcond⟩
    rw [List.mem_filterMap] at hmem
    obtain ⟨i, hi, hlk⟩ := hmem
    rw [Bool.and_eq_true] at hcond
    refine ⟨⟨i, mem_of_lookupA _ _ _ hlk⟩, ?_, ?_⟩
    · simpa using hcond.1
    · simpa using hcond.2
  · rintro ⟨⟨i, hmem⟩, h1, h2⟩
    constructor
    · rw [List.mem_filterMap]
      refine ⟨i, ?_, lookupA_eq_some_of_mem _ _ _ hnd hmem⟩
      rw [mem_sortKeys]
      exact List.mem_map_of_mem Prod.fst hmem
    · simp [h1, h2]

theorem streamEndCalls_eq_pairs (st : AsmState) :
    streamEndCalls st = (streamEndPairs st).map Prod.snd := by
  unfold streamEndCalls streamEndPairs
  induction sortKeys (st.slots.map Prod.fst) with
  | nil => rfl
  | cons a l ih =>
    cases h : lookupA st.slots a with
    | none =>
      simp only [List.filterMap_cons, h]
      exact ih
    | some c =>
      simp only [List.filterMap_cons, h, Option.map_some', List.filter_cons]
      by_cases hc : (decide (c.name ≠ "") && decide (c.arguments ≠ "")) = true
      · rw [if_pos hc, if_pos hc, List.map_cons, ih]
      · rw [if_neg hc, if_neg hc, ih]

theorem pairsIdx_mem (st : AsmState) (ks : List Nat) (j : Nat)
    (h : j ∈ ((ks.filterMap (fun i => (lookupA st.slots i).map (fun c => (i, c)))).filter
        (fun p => p.2.name ≠ "" && p.2.arguments ≠ "")).map Prod.fst) : j ∈ ks := by
  rw [List.mem_map] at h
  obtain ⟨p, hp, hj⟩ := h
  rw [List.mem_filter] at hp
  rw [List.mem_filterMap] at hp
  obtain ⟨⟨i, hi, hfi⟩, _⟩ := hp
  cases hlk : lookupA st.slots i with
  | none => rw [hlk] at hfi; simp at hfi
  | some c =>
    rw [hlk] at hfi
    simp only [Option.map_some'] at hfi
    obtain rfl := Option.some_injective _ hfi
    simpa [← hj] using hi

theorem pairsIdx_sorted (st : AsmState) (ks : List Nat) (hs : ks.Sorted (· < ·)) :
    (((ks.filterMap (fun i => (lookupA st.slots i).map (fun c => (i, c)))).filter
        (fun p => p.2.name ≠ "" && p.2.arguments ≠ "")).map Prod.fst).Sorted (· < ·) := by
  induction ks with
  | nil => simp
  | cons a ks ih =>
    rw [List.sorted_cons] at hs
    simp only [List.filterMap_cons]
    cases hlk : lookupA st.slots a with
    | none => exact ih hs.2
    | some c =>
      simp only [Option.map_some', List.filter_cons]
      by_cases hc : (decide (c.name ≠ "") && decide (c.arguments ≠ "")) = true
      · rw [if_pos hc, List.map_cons, List.sorted_cons]
        refine ⟨?_, ih hs.2⟩
        intro j hj
        exact hs.1 j (pairsIdx_mem st ks j hj)
      · rw [if_neg hc]
        exact ih hs.2

theorem streamEndPairs_sorted (st : AsmState) (hnd : (st.slots.map Prod.fst).Nodup) :
    ((streamEndPairs st).map Prod.fst).Sorted (· < ·) := by
  unfold streamEndPairs
  exact pairsIdx_sorted st _
    (sorted_lt_of_le_nodup _ (sorted_sortKeys _) ((perm_sortKeys _).nodup_iff.mpr hnd))

def evId : Ev → String
  | Ev.content _ => ""
  | Ev.tool_call id _ _ => id
  | Ev.tool_result id _ _ => id

theorem submitDrain_msgs_eq (reg : ToolRegistry) (rs : List (String × (String × Bool)))
    (calls : List ToolCallRec) :
    (submitDrain reg rs calls).2
      = calls.map (fun tc =>
          match lookupA rs tc.id with
          | some v => ToolMsg.mk tc.id v.1
          | none => ToolMsg.mk tc.id (_call_tool_with_fall_back reg tc).1) := by
  induction calls with
  | nil => rfl
  | cons tc rest ih =>
    cases h : lookupA rs tc.id with
    | some v => simp [submitDrain, h, ih]
    | none => simp [submitDrain, h, ih]

theorem submitDrain_events_shape (reg : ToolRegistry) (rs : List (String × (String × Bool)))
    (calls : List ToolCallRec) :
    ∀ e ∈ (submitDrain reg rs calls).1,
      ∃ tc ∈ calls, evId e = tc.id ∧ lookupA rs tc.id = none := by
  induction calls with
  | nil =>
    intro e he
    simp [submitDrain] at he
  | cons tc rest ih =>
    intro e he
    cases h : lookupA rs tc.id with
    | some v =>
      simp only [submitDrain, h] at he
      obtain ⟨tc', h1, h2⟩ := ih e he
      exact ⟨tc', List.mem_cons_of_mem _ h1, h2⟩
    | none =>
      simp only [submitDrain, h] at he
      rcases List.mem_cons.mp he with rfl | he2
      · exact ⟨tc, List.mem_cons_self _ _, rfl, h⟩
      · rcases List.mem_cons.mp he2 with rfl | he3
        · exact ⟨tc, List.mem_cons_self _ _, rfl, h⟩
        · obtain ⟨tc', h1, h2⟩ := ih e he3
          exact ⟨tc', List.mem_cons_of_mem _ h1, h2⟩

theorem submitDrain_mem_events_uncached (reg : ToolRegistry)
    (rs : List (String × (String × Bool))) (calls : List ToolCallRec) (tc : ToolCallRec)
    (hmem : tc ∈ calls) (h : lookupA rs tc.id = none) :
    Ev.tool_call tc.id tc.name (drainArgs tc.arguments) ∈ (submitDrain reg rs calls).1
    ∧ Ev.tool_result tc.id (_call_tool_with_fall_back reg tc).1
        (_call_tool_with_fall_back reg tc).2 ∈ (submitDrain reg rs calls).1 := by
  induction calls with
  | nil => simp at hmem
  | cons hd rest ih =>
    rcases List.mem_cons.mp hmem with rfl | hmem2
    · simp only [submitDrain, h]
      exact ⟨List.mem_cons_self _ _, List.mem_cons_of_mem _ (List.mem_cons_self _ _)⟩
    · cases hl : lookupA rs hd.id with
      | some v =>
        simp only [submitDrain, hl]
        exact ih hmem2
      | none =>
        simp only [submitDrain, hl]
        obtain ⟨h1, h2⟩ := ih hmem2
        exact ⟨List.mem_cons_of_mem _ (List.mem_cons_of_mem _ h1),
          List.mem_cons_of_mem _ (List.mem_cons_of_mem _ h2)⟩

theorem _execute_tool_id (reg : ToolRegistry) (tc : ToolCallRec) :
    (_execute_tool reg tc).2.1 = tc.id := by
  unfold _execute_tool
  dsimp only
  repeat' split
  all_goals rfl

theorem exec_seq_eq_map (reg : ToolRegistry) (calls : List ToolCallRec) :
    _execute_tools_sequential reg calls = calls.map (_execute_tool reg) := by
  induction calls with
  | nil => rfl
  | cons a l ih => simp [_execute_tools_sequential, ih]

theorem chat_stream_ok_no_raise (reg : ToolRegistry) (items : List StreamItem)
    (chunks : List String) :
    (chat_stream reg (Except.ok items) (Except.ok chunks)).raised = none := by
  unfold chat_stream
  by_cases h : (callLLM reg items).valid_tool_calls.isEmpty <;> simp [h]

def isTerminalSse : SseEv → Bool
  | SseEv.chat_complete _ _ => true
  | SseEv.error_event _ => true
  | SseEv.ev _ => false

theorem event_stream_terminated (reg : ToolRegistry)
    (stream1 : Except String (List StreamItem)) (stream2 : Except String (List String)) :
    ∃ t, (event_stream reg stream1 stream2).getLast? = some t ∧ isTerminalSse t = true := by
  unfold event_stream
  cases h : (chat_stream reg stream1 stream2).raised with
  | some e =>
    refine ⟨SseEv.error_event e, ?_, rfl⟩
    simp only [h]
    exact List.getLast?_concat _
  | none =>
    refine ⟨SseEv.chat_complete
      (String.join ((chat_stream reg stream1 stream2).events.map contentOf))
      ((chat_stream reg stream1 stream2).events.countP isToolCallEv), ?_, rfl⟩
    simp only [h]
    exact List.getLast?_concat _

def listStartsWith : List Char → List Char → Bool
  | _, [] => true
  | [], _ :: _ => false
  | c :: cs, p :: ps => c = p && listStartsWith cs ps

def strContainsGo (pat : List Char) : List Char → Bool
  | [] => listStartsWith [] pat
  | c :: cs => listStartsWith (c :: cs) pat || strContainsGo pat cs

/-- Substring test (model of Python's `in` on strings), used to state
"the result text contains …". -/
def strContains (s pat : String) : Bool := strContainsGo pat.toList s.toList

theorem _execute_tool_parse_error (reg : ToolRegistry) (tc : ToolCallRec)
    (hname : tc.name ≠ "") (hargs : tc.arguments ≠ "")
    (hparse : json_parse tc.arguments = none) :
    _execute_tool reg tc
      = ("Error: Invalid arguments for " ++ tc.name ++ ": " ++ parseErrText, tc.id, false) := by
  unfold _execute_tool
  rw [if_neg hname]
  dsimp only
  rw [if_neg hargs, hparse]

/-- C8 — confirmed.  `_is_json_complete` is false on the empty buffer, on
whitespace-only buffers and on buffers that fail to parse (such as a lone
opening brace); it is true exactly when the buffer parses as one complete
JSON value; and, being a pure function of its input, it is side-effect
free and deterministic (equal inputs give equal answers). -/
theorem C8_is_json_complete :
    _is_json_complete "" = false
    ∧ _is_json_complete "  " = false
    ∧ _is_json_complete "\x7b" = false
    ∧ _is_json_complete "\x7b\x7d" = true
    ∧ _is_json_complete "\x7b\"a\":1\x7d" = true
    ∧ (∀ s, _is_json_complete s = true ↔ (json_parse s).isSome)
    ∧ (∀ s, _is_json_complete s = _is_json_complete s) := by
  refine ⟨by decide, by decide, by decide, by decide, by decide, ?_, fun s => rfl⟩
  intro s
  constructor
  · intro h
    unfold _is_json_complete at h
    by_cases hg : (s.isEmpty || s.toList.all pyWs) = true
    · rw [if_pos hg] at h
      exact absurd h Bool.false_ne_true
    · rw [if_neg hg] at h
      exact h
  · intro h
    unfold _is_json_complete
    have hg : (s.isEmpty || s.toList.all pyWs) = false := by
      cases hb : (s.isEmpty || s.toList.all pyWs) with
      | false => rfl
      | true =>
        have hall : s.toList.all pyWs = true := by
          rcases (by simpa using hb : s.isEmpty = true ∨ s.toList.all pyWs = true) with he | ha
          · have hs : s = "" := (String.isEmpty_iff s).mp he
            subst hs
            rfl
          · exact ha
        rw [json_parse_all_ws s hall] at h
        simp at h
    rw [hg]
    simp [h]

/-- C1 — corrected (see `C1_counterexample`: a slot that never satisfies
the readiness conditions produces no Ready notification, so "exactly N for
N distinct slots" fails).  Amended statement, proved here: for every delta
sequence and every slot index `i`, after any prefix of the stream the
executed-log contains `i` exactly once if some already-processed delta
left slot `i` with non-empty id, non-empty name and a complete argument
buffer, and does not contain it at all otherwise.  Hence each slot is
reported ready at most once per stream, the report happens while
processing the earliest delta after which the three conditions hold, no
later delta produces a second report, and the number of eager `tool_call`
events (the Ready notifications) always equals the number of logged
slots. -/
theorem C1_ready_once_at_earliest :
    (∀ reg items i t,
      (runDeltas reg (items.take t)).1.readyLog.count i
        = if everReadyUpTo reg items t i then 1 else 0)
    ∧ (∀ reg items,
      (runDeltas reg items).2.countP isToolCallEv
        = (runDeltas reg items).1.readyLog.length) :=
  ⟨readyCount_take, fun reg items => by
    simpa [runDeltas, initAsm] using (readyLog_length_events reg initAsm items).symm⟩

/-- C1 counterexample: one delta, one distinct slot (N = 1) whose argument
buffer `"{"` never becomes complete JSON.  The stream ends with zero Ready
notifications — the assembler emitted no eager `tool_call` event and the
executed-log is empty — contradicting "exactly N Ready notifications are
emitted". -/
theorem C1_counterexample :
    ((runDeltas [] [StreamItem.toolDelta ⟨0, "a", "", "f", "\x7b"⟩]).1.slots.map
        Prod.fst) = [0]
    ∧ (runDeltas [] [StreamItem.toolDelta ⟨0, "a", "", "f", "\x7b"⟩]).1.readyLog.length = 0
    ∧ (runDeltas [] [StreamItem.toolDelta ⟨0, "a", "", "f", "\x7b"⟩]).2.countP isToolCallEv
        = 0
    ∧ (0 : Nat) ≠ 1 := by
  refine ⟨by decide, by decide, by decide, by decide⟩

/-- C2 — corrected.  The draining loop keys cache reuse on the call's
*final id*, not on its slot (see `C2_counterexample`: a slot eagerly
executed under id `"x"` whose id is later overwritten to `"y"` *is*
re-executed during draining).  Amended statement, proved here:
(1) exactly one tool message is appended per call of the final list, in
call-list order, each referencing that call's id; (2) the appended message
carries the cached result when the call's final id is a key of the cached
results and the freshly-computed result otherwise; (3) no draining event
at all — in particular no second `tool_result` — is emitted for any id
cached during streaming; (4) every call of the list whose final id is not
cached is dispatched during draining, with a `tool_call` event. -/
theorem C2_drain_reuse_keyed_by_id :
    (∀ reg rs calls,
      ((submitDrain reg rs calls).2).map ToolMsg.tool_call_id = calls.map ToolCallRec.id)
    ∧ (∀ reg rs calls,
      (submitDrain reg rs calls).2
        = calls.map (fun tc =>
            match lookupA rs tc.id with
            | some v => ToolMsg.mk tc.id v.1
            | none => ToolMsg.mk tc.id (_call_tool_with_fall_back reg tc).1))
    ∧ (∀ reg rs calls id, (lookupA rs id).isSome →
        ∀ e ∈ (submitDrain reg rs calls).1, evId e ≠ id)
    ∧ (∀ reg rs calls tc, tc ∈ calls → lookupA rs tc.id = none →
        Ev.tool_call tc.id tc.name (drainArgs tc.arguments) ∈ (submitDrain reg rs calls).1) := by
  refine ⟨?_, submitDrain_msgs_eq, ?_, ?_⟩
  · intro reg rs calls
    rw [submitDrain_msgs_eq, List.map_map]
    apply List.map_congr_left
    intro tc _
    cases h : lookupA rs tc.id <;> simp [Function.comp, h]
  · intro reg rs calls id hsome e he heq
    obtain ⟨tc, hmem, h2, h3⟩ := submitDrain_events_shape reg rs calls e he
    rw [heq] at h2
    rw [h2, h3] at hsome
    simp at hsome
  · intro reg rs calls tc hmem h
    exact (submitDrain_mem_events_uncached reg rs calls tc hmem h).1

/-- Witness for `C2_drain_reuse_keyed_by_id` at a concrete input: with the
result for id `"x"` cached, the draining run over one call with uncached
id `"y"` emits no event for `"x"` and does emit the `tool_call` event for
`"y"`. -/
theorem C2_drain_reuse_keyed_by_id_witness :
    evId (Ev.tool_call "y" "f" (drainArgs "\x7b\x7d")) ≠ "x"
    ∧ Ev.tool_call "y" "f" (drainArgs "\x7b\x7d")
        ∈ (submitDrain [] [("x", ("ok", true))]
            [ToolCallRec.mk "y" "function" "f" "\x7b\x7d"]).1 :=
  ⟨C2_drain_reuse_keyed_by_id.2.2.1 [] [("x", ("ok", true))]
      [ToolCallRec.mk "y" "function" "f" "\x7b\x7d"] "x" (by decide)
      (Ev.tool_call "y" "f" (drainArgs "\x7b\x7d")) (by decide),
    C2_drain_reuse_keyed_by_id.2.2.2 [] [("x", ("ok", true))]
      [ToolCallRec.mk "y" "function" "f" "\x7b\x7d"]
      (ToolCallRec.mk "y" "function" "f" "\x7b\x7d") (by decide) (by decide)⟩

/-- C2 counterexample: slot 0 becomes ready with id `"x"` and is eagerly
executed (executed-log `[0]`, result cached under `"x"`); a later delta
overwrites the id to `"y"`.  The final call list contains the very call
whose slot was eagerly executed, yet draining emits a fresh
`tool_call`/`tool_result` pair for it — the cached result is not reused
and the call is re-executed, because reuse is keyed by id, not slot. -/
theorem C2_counterexample :
    (runDeltas [("f", fun _ => ToolOutcome.ok "ok")]
        [StreamItem.toolDelta ⟨0, "x", "", "f", "\x7b\x7d"⟩,
          StreamItem.toolDelta ⟨0, "y", "", "", ""⟩]).1.readyLog = [0]
    ∧ streamEndCalls (runDeltas [("f", fun _ => ToolOutcome.ok "ok")]
        [StreamItem.toolDelta ⟨0, "x", "", "f", "\x7b\x7d"⟩,
          StreamItem.toolDelta ⟨0, "y", "", "", ""⟩]).1
      = [ToolCallRec.mk "y" "function" "f" "\x7b\x7d"]
    ∧ (submitDrain [("f", fun _ => ToolOutcome.ok "ok")]
        (runDeltas [("f", fun _ => ToolOutcome.ok "ok")]
          [StreamItem.toolDelta ⟨0, "x", "", "f", "\x7b\x7d"⟩,
            StreamItem.toolDelta ⟨0, "y", "", "", ""⟩]).1.tool_results
        (streamEndCalls (runDeltas [("f", fun _ => ToolOutcome.ok "ok")]
          [StreamItem.toolDelta ⟨0, "x", "", "f", "\x7b\x7d"⟩,
            StreamItem.toolDelta ⟨0, "y", "", "", ""⟩]).1)).1
      = [Ev.tool_call "y" "f" (ArgPayload.parsed (Json.jobj [])),
          Ev.tool_result "y" "ok" true] := by
  refine ⟨by decide, by decide, by decide⟩

/-- C3 — corrected.  When `asyncio.wait_for` raises `TimeoutError`, the
source's `except` branch rebuilds a `("Timeout after …s", id, False)`
triple for *every* call of the batch; the results of calls that had
already completed were held inside the cancelled `gather` and are
discarded (see `C3_counterexample`).  Amended statement, proved here: if
some call of the batch has not finished by the deadline (so the batch
times out), every call — completed or not — is reported as failed with the
timeout message. -/
theorem C3_timeout_discards_all (reg : ToolRegistry) (t : String)
    (calls : List ToolCallRec) (finished : Nat → Bool)
    (h : (List.range calls.length).all finished = false) :
    _execute_tools_parallel reg t calls finished
      = calls.map (fun tc => (timeoutText t, tc.id, false)) := by
  unfold _execute_tools_parallel
  rw [h]
  simp

/-- Witness for `C3_timeout_discards_all`: a two-call batch in which only
the first task finished by the deadline still returns the timeout triple
for both calls. -/
theorem C3_timeout_discards_all_witness :
    (List.range 2).all (fun i => decide (i = 0)) = false
    ∧ _execute_tools_parallel [("echo", fun _ => ToolOutcome.ok "bar")] "30.0"
        [ToolCallRec.mk "id0" "function" "echo" "\x7b\x7d",
          ToolCallRec.mk "id1" "function" "slow" "\x7b\x7d"] (fun i => decide (i = 0))
      = [("Timeout after 30.0s", "id0", false), ("Timeout after 30.0s", "id1", false)] :=
  ⟨by decide,
    C3_timeout_discards_all [("echo", fun _ => ToolOutcome.ok "bar")] "30.0"
      [ToolCallRec.mk "id0" "function" "echo" "\x7b\x7d",
        ToolCallRec.mk "id1" "function" "slow" "\x7b\x7d"] (fun i => decide (i = 0))
      (by decide)⟩

/-- C3 counterexample: under the schedule in which call `"id0"` finished
before the deadline (`finished 0 = true`) but call `"id1"` did not, the
batch times out; the claim requires `"id0"` to keep its real result
`("bar", true)`, but the code reports the timeout failure for it too. -/
theorem C3_counterexample :
    (fun i => decide (i = 0)) 0 = true
    ∧ _execute_tool [("echo", fun _ => ToolOutcome.ok "bar")]
        (ToolCallRec.mk "id0" "function" "echo" "\x7b\x7d") = ("bar", "id0", true)
    ∧ _execute_tools_parallel [("echo", fun _ => ToolOutcome.ok "bar")] "30.0"
        [ToolCallRec.mk "id0" "function" "echo" "\x7b\x7d",
          ToolCallRec.mk "id1" "function" "slow" "\x7b\x7d"] (fun i => decide (i = 0))
      = [("Timeout after 30.0s", "id0", false), ("Timeout after 30.0s", "id1", false)]
    ∧ ("Timeout after 30.0s", "id0", (false : Bool)) ≠ ("bar", "id0", true) := by
  refine ⟨by decide, by decide, by decide, by decide⟩

/-- C4 — confirmed.  Both execution modes return exactly one
`(result, id, success)` triple per input call, and the i-th output triple
carries the i-th input call's id, for every registry, every schedule
(hence every mix of success, failure and timeout) and both the normal and
the timed-out batch. -/
theorem C4_one_result_per_call_in_order :
    (∀ reg t calls finished,
      (_execute_tools_parallel reg t calls finished).length = calls.length
      ∧ (_execute_tools_parallel reg t calls finished).map (fun r => r.2.1)
          = calls.map ToolCallRec.id)
    ∧ (∀ reg calls,
      (_execute_tools_sequential reg calls).length = calls.length
      ∧ (_execute_tools_sequential reg calls).map (fun r => r.2.1)
          = calls.map ToolCallRec.id) := by
  constructor
  · intro reg t calls finished
    constructor
    · unfold _execute_tools_parallel
      split <;> simp
    · unfold _execute_tools_parallel
      split
      · rw [List.map_map]
        apply List.map_congr_left
        intro tc _
        exact _execute_tool_id reg tc
      · rw [List.map_map]
        rfl
  · intro reg calls
    rw [exec_seq_eq_map]
    constructor
    · simp
    · rw [List.map_map]
      apply List.map_congr_left
      intro tc _
      exact _execute_tool_id reg tc

/-- C9 — corrected.  `_execute_tools_sequential` contains no
`asyncio.wait_for` and never consults `tool_call_timeout`: each call is
awaited to completion and its genuine `_execute_tool` triple is returned
(see `C9_counterexample` for the contrast with the parallel mode's batch
deadline).  Amended statement, proved here: sequential execution equals
the plain per-call mapping of `_execute_tool`, with no deadline applied to
the cumulative duration and no scheduler-produced timeout failure. -/
theorem C9_sequential_has_no_deadline (reg : ToolRegistry) (calls : List ToolCallRec) :
    _execute_tools_sequential reg calls = calls.map (_execute_tool reg) :=
  exec_seq_eq_map reg calls

/-- C9 counterexample: with the batch deadline set to `0`, a call that
performs any work is still outstanding when the deadline fires, so by the
claim the sequential mode should report it as failed with a timeout
message; the parallel model does exactly that, but the sequential code
path returns the call's real successful result — it applies no deadline at
all. -/
theorem C9_counterexample :
    _execute_tools_sequential [("echo", fun _ => ToolOutcome.ok "bar")]
        [ToolCallRec.mk "id1" "function" "echo" "\x7b\x7d"] = [("bar", "id1", true)]
    ∧ _execute_tools_parallel [("echo", fun _ => ToolOutcome.ok "bar")] "0"
        [ToolCallRec.mk "id1" "function" "echo" "\x7b\x7d"] (fun _ => false)
      = [("Timeout after 0s", "id1", false)]
    ∧ ("bar", "id1", (true : Bool)) ≠ ("Timeout after 0s", "id1", false) := by
  refine ⟨by decide, by decide, by decide⟩

/-- C5 — corrected.  `_execute_tool` parses the argument JSON *before*
looking the name up in the registry, so for a call that both has an
unknown name and unparseable arguments the result text describes the parse
error and does not contain `Unknown function` (see `C5_counterexample`).
Amended statement, proved here: (1) an unknown tool name whose arguments
do parse yields the failure `Unknown function '<name>'`; (2) an
argument-parse failure yields a failure describing the parse error (taking
precedence over the lookup); (3) a tool body raising an error yields a
failure wrapping the error message; (4) and (5): in both modes, when the
batch completes, every call's triple is exactly its own `_execute_tool`
result, independent of the other calls of the batch — no single call's
failure aborts the batch. -/
theorem C5_failure_isolation :
    (∀ reg (tc : ToolCallRec), tc.name ≠ "" →
      json_parse (if tc.arguments = "" then "\x7b\x7d" else tc.arguments) ≠ none →
      lookupA reg tc.name = none →
      _execute_tool reg tc
        = ("Error: Unknown function " ++ quoteCh ++ tc.name ++ quoteCh, tc.id, false))
    ∧ (∀ reg (tc : ToolCallRec), tc.name ≠ "" →
      json_parse (if tc.arguments = "" then "\x7b\x7d" else tc.arguments) = none →
      _execute_tool reg tc
        = ("Error: Invalid arguments for " ++ tc.name ++ ": " ++ parseErrText, tc.id, false))
    ∧ (∀ reg (tc : ToolCallRec) f args e, tc.name ≠ "" →
      json_parse (if tc.arguments = "" then "\x7b\x7d" else tc.arguments) = some args →
      lookupA reg tc.name = some f → f args = ToolOutcome.raised e →
      _execute_tool reg tc = ("Error executing " ++ tc.name ++ ": " ++ e, tc.id, false))
    ∧ (∀ reg calls, _execute_tools_sequential reg calls = calls.map (_execute_tool reg))
    ∧ (∀ reg t calls finished, (List.range calls.length).all finished = true →
      _execute_tools_parallel reg t calls finished = calls.map (_execute_tool reg)) := by
  refine ⟨?_, ?_, ?_, exec_seq_eq_map, ?_⟩
  · intro reg tc hname hp hlk
    unfold _execute_tool
    rw [if_neg hname]
    dsimp only
    cases hj : json_parse (if tc.arguments = "" then "\x7b\x7d" else tc.arguments) with
    | none => exact absurd hj hp
    | some a => simp only [hj, hlk]
  · intro reg tc hname hp
    unfold _execute_tool
    rw [if_neg hname]
    dsimp only
    simp only [hp]
  · intro reg tc f args e hname hj hlk hf
    unfold _execute_tool
    rw [if_neg hname]
    dsimp only
    simp only [hj, hlk, hf]
  · intro reg t calls finished h
    unfold _execute_tools_parallel
    rw [h]
    simp

/-- Witness for `C5_failure_isolation`, applying each branch at a concrete
input: unknown name with parseable arguments, unparseable arguments, a
raising tool body, and a completed two-call batch containing a failing
call. -/
theorem C5_failure_isolation_witness :
    _execute_tool [("echo", fun _ => ToolOutcome.ok "bar")]
        (ToolCallRec.mk "i1" "function" "foo" "\x7b\x7d")
      = ("Error: Unknown function " ++ quoteCh ++ "foo" ++ quoteCh, "i1", false)
    ∧ _execute_tool [] (ToolCallRec.mk "i2" "function" "f" "\x7b")
      = ("Error: Invalid arguments for " ++ "f" ++ ": " ++ parseErrText, "i2", false)
    ∧ _execute_tool [("boom", fun _ => ToolOutcome.raised "fail")]
        (ToolCallRec.mk "i3" "function" "boom" "")
      = ("Error executing " ++ "boom" ++ ": " ++ "fail", "i3", false)
    ∧ _execute_tools_parallel [("echo", fun _ => ToolOutcome.ok "bar")] "30.0"
        [ToolCallRec.mk "ia" "function" "foo" "\x7b\x7d",
          ToolCallRec.mk "ib" "function" "echo" "\x7b\x7d"] (fun _ => true)
      = [ToolCallRec.mk "ia" "function" "foo" "\x7b\x7d",
          ToolCallRec.mk "ib" "function" "echo" "\x7b\x7d"].map
          (_execute_tool [("echo", fun _ => ToolOutcome.ok "bar")]) :=
  ⟨C5_failure_isolation.1 [("echo", fun _ => ToolOutcome.ok "bar")]
      (ToolCallRec.mk "i1" "function" "foo" "\x7b\x7d") (by decide) (by decide) rfl,
    C5_failure_isolation.2.1 [] (ToolCallRec.mk "i2" "function" "f" "\x7b")
      (by decide) (by decide),
    C5_failure_isolation.2.2.1 [("boom", fun _ => ToolOutcome.raised "fail")]
      (ToolCallRec.mk "i3" "function" "boom" "") (fun _ => ToolOutcome.raised "fail")
      (Json.jobj []) "fail" (by decide) (by decide) rfl rfl,
    C5_failure_isolation.2.2.2.2 [("echo", fun _ => ToolOutcome.ok "bar")] "30.0"
      [ToolCallRec.mk "ia" "function" "foo" "\x7b\x7d",
        ToolCallRec.mk "ib" "function" "echo" "\x7b\x7d"] (fun _ => true) (by decide)⟩

/-- C5 counterexample: the call has the unknown name `"foo"` *and* an
unparseable argument buffer `"{"`.  The claim requires a failure text
containing `Unknown function 'foo'`, but the code parses the arguments
first and returns the parse-error text, which does not contain
`Unknown function`. -/
theorem C5_counterexample :
    lookupA ([("echo", fun _ => ToolOutcome.ok "bar")] : ToolRegistry) "foo" = none
    ∧ _execute_tool [("echo", fun _ => ToolOutcome.ok "bar")]
        (ToolCallRec.mk "id1" "function" "foo" "\x7b")
      = ("Error: Invalid arguments for foo: " ++ parseErrText, "id1", false)
    ∧ strContains ("Error: Invalid arguments for foo: " ++ parseErrText)
        "Unknown function" = false :=
  ⟨rfl, by decide, by decide⟩

/-- C6 — corrected.  Tool failures of every kind are converted into result
triples and never raise, so `chat_stream` finishes normally whenever both
model-transport calls succeed; but `chat_stream` wraps neither
`client.chat.completions.create` call in a `try`, so a model-transport
failure propagates out of it (see `C6_counterexample`).  The exception is
caught one layer up, in `app.py`'s `event_stream`, whose output therefore
always ends in a terminal event — `ChatCompleteEvent` on success or
`ErrorEvent` on a transport failure — for every input. -/
theorem C6_transport_errors_propagate_to_event_stream :
    (∀ reg items chunks,
      (chat_stream reg (Except.ok items) (Except.ok chunks)).raised = none)
    ∧ (∀ reg stream1 stream2,
      ∃ t, (event_stream reg stream1 stream2).getLast? = some t
        ∧ isTerminalSse t = true) :=
  ⟨chat_stream_ok_no_raise, event_stream_terminated⟩

/-- C6 counterexample: a failing model transport makes the exception
escape `chat_stream` itself — its run ends with a raised error, not a
normal return, contradicting "no exception ever propagates out of
chat_stream". -/
theorem C6_counterexample :
    (chat_stream [] (Except.error "transport failure") (Except.ok [])).raised
      = some "transport failure"
    ∧ (chat_stream [] (Except.error "transport failure") (Except.ok [])).raised ≠ none :=
  ⟨rfl, by decide⟩

/-- C7 — confirmed.  At stream end the final call list contains exactly
the accumulated fragments with non-empty name and non-empty argument
buffer (everything else is dropped), it is the index-ascending read-out of
the slot dict (the retained fragments' slot indices are strictly
increasing), and dropping is silent: every event the draining phase emits
carries the id of a call that passed the filter, so dropped fragments
produce no error result or event. -/
theorem C7_stream_end_sort_filter :
    (∀ reg items tc,
      tc ∈ (callLLM reg items).valid_tool_calls
        ↔ (∃ i, (i, tc) ∈ (runDeltas reg items).1.slots)
            ∧ tc.name ≠ "" ∧ tc.arguments ≠ "")
    ∧ (∀ reg items,
      (callLLM reg items).valid_tool_calls
          = (streamEndPairs (runDeltas reg items).1).map Prod.snd
        ∧ ((streamEndPairs (runDeltas reg items).1).map Prod.fst).Sorted (· < ·))
    ∧ (∀ reg rs calls,
      ((submitDrain reg rs calls).1.map evId).all
          (fun s => (calls.map ToolCallRec.id).contains s) = true) := by
  refine ⟨?_, ?_, ?_⟩
  · intro reg items tc
    exact mem_streamEndCalls (runDeltas reg items).1 (runDeltas_keys_nodup reg items) tc
  · intro reg items
    exact ⟨streamEndCalls_eq_pairs (runDeltas reg items).1,
      streamEndPairs_sorted (runDeltas reg items).1 (runDeltas_keys_nodup reg items)⟩
  · intro reg rs calls
    rw [List.all_eq_true]
    intro s hs
    rw [List.mem_map] at hs
    obtain ⟨e, he, rfl⟩ := hs
    obtain ⟨tc, hmem, h2, _⟩ := submitDrain_events_shape reg rs calls e he
    rw [h2]
    exact List.elem_iff.mpr (List.mem_map_of_mem ToolCallRec.id hmem)

/-- C10 — corrected for the case ruled out by `C10_counterexample` (a call
whose buffer passed through an early complete-looking prefix was eagerly
executed and cached, and draining then reuses the cache instead of
re-dispatching).  Amended statement, proved here: a fragment whose final
argument buffer is non-empty but unparseable (with non-empty name), *and
whose id has no cached streaming result*, is not dropped: it passes the
stream-end filter, draining emits for it a `tool_call` event carrying the
raw unparsed argument string, its execution fails with the
argument-parse-error text, and a tool message with that text is appended. -/
theorem C10_unparsed_args_dispatched_in_drain (reg : ToolRegistry)
    (items : List StreamItem) (tc : ToolCallRec)
    (hmem : ∃ i, (i, tc) ∈ (runDeltas reg items).1.slots)
    (hname : tc.name ≠ "") (hargs : tc.arguments ≠ "")
    (hparse : json_parse tc.arguments = none)
    (hnc : lookupA (runDeltas reg items).1.tool_results tc.id = none) :
    tc ∈ (callLLM reg items).valid_tool_calls
    ∧ Ev.tool_call tc.id tc.name (ArgPayload.raw tc.arguments)
        ∈ (submitDrain reg (runDeltas reg items).1.tool_results
            (callLLM reg items).valid_tool_calls).1
    ∧ Ev.tool_result tc.id
        ("Error: Invalid arguments for " ++ tc.name ++ ": " ++ parseErrText) false
        ∈ (submitDrain reg (runDeltas reg items).1.tool_results
            (callLLM reg items).valid_tool_calls).1
    ∧ ToolMsg.mk tc.id ("Error: Invalid arguments for " ++ tc.name ++ ": " ++ parseErrText)
        ∈ (submitDrain reg (runDeltas reg items).1.tool_results
            (callLLM reg items).valid_tool_calls).2 := by
  have hvalid : tc ∈ streamEndCalls (runDeltas reg items).1 :=
    (mem_streamEndCalls _ (runDeltas_keys_nodup reg items) tc).mpr ⟨hmem, hname, hargs⟩
  have hfb : _call_tool_with_fall_back reg tc
      = ("Error: Invalid arguments for " ++ tc.name ++ ": " ++ parseErrText, false) := by
    unfold _call_tool_with_fall_back
    rw [_execute_tool_parse_error reg tc hname hargs hparse]
  have hdr : drainArgs tc.arguments = ArgPayload.raw tc.arguments := by
    unfold drainArgs
    rw [hparse]
  obtain ⟨h1, h2⟩ := submitDrain_mem_events_uncached reg
    (runDeltas reg items).1.tool_results (streamEndCalls (runDeltas reg items).1) tc hvalid hnc
  refine ⟨hvalid, ?_, ?_, ?_⟩
  · rw [← hdr]
    exact h1
  · have h3 := h2
    rw [hfb] at h3
    exact h3
  · rw [show (submitDrain reg (runDeltas reg items).1.tool_results
        (callLLM reg items).valid_tool_calls).2
      = (submitDrain reg (runDeltas reg items).1.tool_results
        (streamEndCalls (runDeltas reg items).1)).2 from rfl,
      submitDrain_msgs_eq]
    have hx := List.mem_map_of_mem (fun tc =>
        match lookupA (runDeltas reg items).1.tool_results tc.id with
        | some v => ToolMsg.mk tc.id v.1
        | none => ToolMsg.mk tc.id (_call_tool_with_fall_back reg tc).1) hvalid
    simpa [hnc, hfb] using hx

/-- Witness for `C10_unparsed_args_dispatched_in_drain`: a single delta
leaves slot 0 with id `"a"`, name `"f"` and the never-complete buffer
`"{!"`; it is never eagerly executed, passes the stream-end filter, and
draining dispatches it with the raw argument string and the parse-error
failure. -/
theorem C10_unparsed_args_dispatched_in_drain_witness :
    ToolCallRec.mk "a" "function" "f" "\x7b!"
        ∈ (callLLM [] [StreamItem.toolDelta ⟨0, "a", "", "f", "\x7b!"⟩]).valid_tool_calls
    ∧ Ev.tool_call "a" "f" (ArgPayload.raw "\x7b!")
        ∈ (submitDrain [] (runDeltas [] [StreamItem.toolDelta ⟨0, "a", "", "f", "\x7b!"⟩]).1.tool_results
            (callLLM [] [StreamItem.toolDelta ⟨0, "a", "", "f", "\x7b!"⟩]).valid_tool_calls).1
    ∧ Ev.tool_result "a" ("Error: Invalid arguments for " ++ "f" ++ ": " ++ parseErrText) false
        ∈ (submitDrain [] (runDeltas [] [StreamItem.toolDelta ⟨0, "a", "", "f", "\x7b!"⟩]).1.tool_results
            (callLLM [] [StreamItem.toolDelta ⟨0, "a", "", "f", "\x7b!"⟩]).valid_tool_calls).1
    ∧ ToolMsg.mk "a" ("Error: Invalid arguments for " ++ "f" ++ ": " ++ parseErrText)
        ∈ (submitDrain [] (runDeltas [] [StreamItem.toolDelta ⟨0, "a", "", "f", "\x7b!"⟩]).1.tool_results
            (callLLM [] [StreamItem.toolDelta ⟨0, "a", "", "f", "\x7b!"⟩]).valid_tool_calls).2 :=
  C10_unparsed_args_dispatched_in_drain [] [StreamItem.toolDelta ⟨0, "a", "", "f", "\x7b!"⟩]
    (ToolCallRec.mk "a" "function" "f" "\x7b!") ⟨0, by decide⟩ (by decide) (by decide)
    (by decide) (by decide)

/-- C10 counterexample: slot 0 first accumulates the complete-looking
buffer `"{}"` (eagerly executed, result `"ok"` cached under id `"a"`), and
a later delta appends `"!"`, leaving the final buffer `"{}!"` — non-empty,
non-parseable, with non-empty name.  Contrary to the claim, draining does
*not* dispatch the call: it emits no event at all and appends the cached
successful result, not an argument-parse-error text. -/
theorem C10_counterexample :
    json_parse "\x7b\x7d!" = none
    ∧ streamEndCalls (runDeltas [("f", fun _ => ToolOutcome.ok "ok")]
        [StreamItem.toolDelta ⟨0, "a", "", "f", "\x7b\x7d"⟩,
          StreamItem.toolDelta ⟨0, "", "", "", "!"⟩]).1
      = [ToolCallRec.mk "a" "function" "f" "\x7b\x7d!"]
    ∧ (submitDrain [("f", fun _ => ToolOutcome.ok "ok")]
        (runDeltas [("f", fun _ => ToolOutcome.ok "ok")]
          [StreamItem.toolDelta ⟨0, "a", "", "f", "\x7b\x7d"⟩,
            StreamItem.toolDelta ⟨0, "", "", "", "!"⟩]).1.tool_results
        (streamEndCalls (runDeltas [("f", fun _ => ToolOutcome.ok "ok")]
          [StreamItem.toolDelta ⟨0, "a", "", "f", "\x7b\x7d"⟩,
            StreamItem.toolDelta ⟨0, "", "", "", "!"⟩]).1)).1
      = []
    ∧ (submitDrain [("f", fun _ => ToolOutcome.ok "ok")]
        (runDeltas [("f", fun _ => ToolOutcome.ok "ok")]
          [StreamItem.toolDelta ⟨0, "a", "", "f", "\x7b\x7d"⟩,
            StreamItem.toolDelta ⟨0, "", "", "", "!"⟩]).1.tool_results
        (streamEndCalls (runDeltas [("f", fun _ => ToolOutcome.ok "ok")]
          [StreamItem.toolDelta ⟨0, "a", "", "f", "\x7b\x7d"⟩,
            StreamItem.toolDelta ⟨0, "", "", "", "!"⟩]).1)).2
      = [ToolMsg.mk "a" "ok"] := by
  refine ⟨by decide, by decide, by decide, by decide⟩
